import Mathlib

/-!
Shallow embedding of the archive subsystem of paramguard
(paramguard-core/src/archive: db.rs, interface/mod.rs, interface/display.rs).

Modelling conventions:
* SQLite rows of table `archived_files` become the structure `ArchivedRow`;
  the table is a `List ArchivedRow` inside `DbState` (kept in insertion
  order, which is rowid order).  `INTEGER PRIMARY KEY` id assignment is
  modelled by the `nextId` counter.
* Instants (`chrono::DateTime<Utc>`, stored as RFC3339 text) are modelled as
  `Int` seconds since the epoch.  For the dates produced by
  `Utc::now().to_rfc3339()`, lexicographic order on the stored text agrees
  with chronological order, so `ORDER BY archive_date DESC` is sorting by
  the instant, and SQLite's `strftime('%s', archive_date)` is the identity
  at whole-second resolution.
* Byte strings (`Vec<u8>`, `&[u8]`, and UTF-8 bytes of `&str` where byte
  indexing matters) are `List Nat` with entries `< 256`.
* Fallible Rust functions returning `Result` become `Except`; methods that
  mutate the database through `&self` (SQLite connection) are modelled by
  explicit state passing and return `Except e α × DbState`, the returned
  state being unchanged on error.
* A SQL statement naming a column that does not exist in the schema fails
  at prepare time with a no-such-column error; the model records the
  literal column lists of each statement and checks them against the
  schema's columns, exactly as SQLite does.
-/

deriving instance DecidableEq for Except

/-! ## SHA-256 (sha2 crate) over byte lists, word arithmetic in `Nat` mod 2^32 -/

def w32 (x : Nat) : Nat := x % 4294967296

def rotr32 (x n : Nat) : Nat := w32 (Nat.lor (x >>> n) (x <<< (32 - n)))

def sha256K : List Nat :=
  [1116352408, 1899447441, 3049323471, 3921009573, 961987163,
   1508970993, 2453635748, 2870763221, 3624381080, 310598401,
   607225278, 1426881987, 1925078388, 2162078206, 2614888103,
   3248222580, 3835390401, 4022224774, 264347078, 604807628,
   770255983, 1249150122, 1555081692, 1996064986, 2554220882,
   2821834349, 2952996808, 3210313671, 3336571891, 3584528711,
   113926993, 338241895, 666307205, 773529912, 1294757372,
   1396182291, 1695183700, 1986661051, 2177026350, 2456956037,
   2730485921, 2820302411, 3259730800, 3345764771, 3516065817,
   3600352804, 4094571909, 275423344, 430227734, 506948616,
   659060556, 883997877, 958139571, 1322822218, 1537002063,
   1747873779, 1955562222, 2024104815, 2227730452, 2361852424,
   2428436474, 2756734187, 3204031479, 3329325298]

def sha256H0 : List Nat :=
  [1779033703, 3144134277, 1013904242, 2773480762,
   1359893119, 2600822924, 528734635, 1541459225]

def sha256Pad (msg : List Nat) : List Nat :=
  let L := msg.length
  let zeros := (120 - ((L + 1) % 64)) % 64
  let bitLen := 8 * L
  msg ++ [0x80] ++ List.replicate zeros 0 ++
    ((List.range 8).map (fun i => (bitLen >>> (8 * (7 - i))) % 256))

def be32At (block : List Nat) (i : Nat) : Nat :=
  (block.getD (4 * i) 0) <<< 24 ||| (block.getD (4 * i + 1) 0) <<< 16 |||
    (block.getD (4 * i + 2) 0) <<< 8 ||| block.getD (4 * i + 3) 0

def sha256Schedule (block : List Nat) : Array Nat :=
  let firstWords : Array Nat := ((List.range 16).map (be32At block)).toArray
  (List.range 48).foldl
    (fun acc _ =>
      let i := acc.size
      let wa := acc.getD (i - 15) 0
      let wb := acc.getD (i - 2) 0
      let sigma0 := Nat.xor (Nat.xor (rotr32 wa 7) (rotr32 wa 18)) (wa >>> 3)
      let sigma1 := Nat.xor (Nat.xor (rotr32 wb 17) (rotr32 wb 19)) (wb >>> 10)
      acc.push (w32 (acc.getD (i - 16) 0 + sigma0 + acc.getD (i - 7) 0 + sigma1)))
    firstWords

def sha256Round (regs : List Nat) (kc wc : Nat) : List Nat :=
  match regs with
  | [ra, rb, rc, rd, re, rf, rg, rh] =>
      let bigS1 := Nat.xor (Nat.xor (rotr32 re 6) (rotr32 re 11)) (rotr32 re 25)
      let chVal := Nat.xor (Nat.land re rf) (Nat.land (Nat.xor re 4294967295) rg)
      let tmp1 := w32 (rh + bigS1 + chVal + kc + wc)
      let bigS0 := Nat.xor (Nat.xor (rotr32 ra 2) (rotr32 ra 13)) (rotr32 ra 22)
      let majVal := Nat.xor (Nat.xor (Nat.land ra rb) (Nat.land ra rc)) (Nat.land rb rc)
      let tmp2 := w32 (bigS0 + majVal)
      [w32 (tmp1 + tmp2), ra, rb, rc, w32 (rd + tmp1), re, rf, rg]
  | other => other

def sha256Compress (hs : List Nat) (block : List Nat) : List Nat :=
  let sched := sha256Schedule block
  let final := (List.range 64).foldl
    (fun regs i => sha256Round regs (sha256K.getD i 0) (sched.getD i 0)) hs
  List.zipWith (fun x y => w32 (x + y)) hs final

def chunks64Go : Nat → List Nat → List (List Nat)
  | 0, _ => []
  | n + 1, l => l.take 64 :: chunks64Go n (l.drop 64)

def sha256Words (msg : List Nat) : List Nat :=
  let padded := sha256Pad msg
  (chunks64Go (padded.length / 64) padded).foldl sha256Compress sha256H0

def hexDigit (n : Nat) : Char :=
  if n < 10 then Char.ofNat (48 + n) else Char.ofNat (87 + n)

def hex8 (x : Nat) : String :=
  String.mk ((List.range 8).map (fun i => hexDigit ((x >>> (4 * (7 - i))) % 16)))

/-- Lowercase hex digest of the SHA-256 of a byte list, as produced by
Rust's `format!("{:x}", hasher.finalize())` in `ArchiveDb::archive_file`. -/
def sha256Hex (msg : List Nat) : String :=
  String.join ((sha256Words msg).map hex8)

/-! ## SQLite `LIKE` (default, no ESCAPE): ASCII case folding, `%`/`_` wildcards -/

/-- ASCII-only lower casing, as SQLite's default `LIKE` applies to both the
pattern and the matched text (non-ASCII characters are not folded). -/
def asciiLower (c : Char) : Char :=
  if 'A' ≤ c ∧ c ≤ 'Z' then Char.ofNat (c.toNat + 32) else c

/-- All suffixes of a character list, the list itself first. -/
def tailsOf : List Char → List (List Char)
  | [] => [[]]
  | c :: s => (c :: s) :: tailsOf s

/-- SQLite `LIKE` pattern matching: `%` matches any sequence of characters
(that is, the rest of the pattern matches some suffix), `_` matches any
single character, any other character matches itself up to ASCII case
folding. -/
def likeMatch : List Char → List Char → Bool
  | [], s => s.isEmpty
  | p :: ps, s =>
      if p == '%' then (tailsOf s).any (fun t => likeMatch ps t)
      else
        match s with
        | [] => false
        | c :: s2 =>
            if p == '_' then likeMatch ps s2
            else (asciiLower p == asciiLower c) && likeMatch ps s2

/-- Spec-side notion for the search claim: `q` occurs as a substring of `s`
after ASCII case folding.  `hasSubstring q s` holds iff `q` is a prefix of
some suffix of `s`. -/
def hasSubstring (q : List Char) : List Char → Bool
  | [] => q.isEmpty
  | c :: rest => q.isPrefixOf (c :: rest) || hasSubstring q rest

/-- Spec-side case-insensitive substring test on strings (ASCII folding). -/
def specCiSubstring (q s : String) : Bool :=
  hasSubstring (q.data.map asciiLower) (s.data.map asciiLower)

/-- True when the query contains no SQL LIKE wildcard characters. -/
def noWildcardChars (q : String) : Bool :=
  q.data.all (fun c => !(c == '%') && !(c == '_'))

/-! ## Data model: the `archived_files` table and its rows -/

/-- One row of the `archived_files` table (struct `ArchivedFile` in db.rs,
with the BLOB payload `file_content` that the struct carries separately). -/
structure ArchivedRow where
  id : Int
  name : String
  original_path : String
  format : String
  content_hash : String
  file_content : List Nat
  archive_date : Int
  retention_period : Int
  reason : String
  metadata : String
deriving DecidableEq

/-- The persistent store: the rows of `archived_files` in rowid order plus
the next id `INTEGER PRIMARY KEY` will assign. -/
structure DbState where
  rows : List ArchivedRow
  nextId : Int
deriving DecidableEq

/-- The `rusqlite::Error` values the archive code can produce. -/
inductive DbError where
  | noSuchColumn : String → DbError
  | queryReturnedNoRows : DbError
  | invalidParameterName : String → DbError
deriving DecidableEq

/-- `ArchiveError` from archive/error.rs (IoError's payload elided). -/
inductive ArchiveError where
  | DbError : DbError → ArchiveError
  | IoError : ArchiveError
  | NotFound : Int → ArchiveError
  | RetentionActive : ArchiveError
deriving DecidableEq

/-- Columns of `archived_files` as declared by the CREATE TABLE statement in
`ArchiveDb::new`. -/
def archivedFilesColumns : List String :=
  ["id", "name", "original_path", "format", "content_hash", "file_content",
   "archive_date", "retention_period", "reason", "metadata"]

/-- Column list of the INSERT statement in `ArchiveDb::archive_file`,
transcribed verbatim (note the misspelled `origina_path`). -/
def archiveFileInsertColumns : List String :=
  ["name", "origina_path", "format", "content_hash", "file_content",
   "archive_date", "retention_period", "reason", "metadata"]

/-- Column list of the SELECT statement in `ArchiveDb::list_archives`,
transcribed verbatim (note the misspelled `origina_path` and `reaason`). -/
def listArchivesSelectColumns : List String :=
  ["id", "name", "origina_path", "format", "content_hash", "archive_date",
   "retention_period", "reaason", "metadata"]

/-- First column of a statement that is not a column of `archived_files`;
SQLite fails to prepare such a statement with a no-such-column error. -/
def firstUnknownColumn (cols : List String) : Option String :=
  cols.find? (fun c => !(archivedFilesColumns.contains c))

/-- Descending order on archive dates, the comparison behind
`ORDER BY archive_date DESC`. -/
def dateDescRel (a b : ArchivedRow) : Prop :=
  b.archive_date ≤ a.archive_date

instance : DecidableRel dateDescRel :=
  fun a b => inferInstanceAs (Decidable (b.archive_date ≤ a.archive_date))

instance : IsTotal ArchivedRow dateDescRel :=
  ⟨fun a b => le_total b.archive_date a.archive_date⟩

instance : IsTrans ArchivedRow dateDescRel :=
  ⟨fun _ _ _ h1 h2 => le_trans h2 h1⟩

/-- Rows sorted by `archive_date` descending (`ORDER BY archive_date DESC`). -/
def sortByDateDesc (rows : List ArchivedRow) : List ArchivedRow :=
  List.insertionSort dateDescRel rows

/-! ## ArchiveDb (db.rs) -/

/-- Shallow embedding of `ArchiveDb::archive_file`.  The INSERT statement
lists the column `origina_path`, which is not a column of `archived_files`
(the schema says `original_path`), so SQLite rejects the statement and the
insert branch below is unreachable; it is nevertheless spelled out from the
source: hash the content with SHA-256, store `retention_days * 86400`
seconds, and return the assigned rowid. -/
def ArchiveDb.archive_file (st : DbState) (name : String) (path : String)
    (content : List Nat) (format : String) (retention_days : Int)
    (reason : String) (metadata : String) (now : Int) :
    Except DbError Int × DbState :=
  let hash := sha256Hex content
  match firstUnknownColumn archiveFileInsertColumns with
  | some c => (.error (.noSuchColumn c), st)
  | none =>
      let id := st.nextId
      (.ok id,
       { rows := st.rows ++
           [{ id, name, original_path := path, format, content_hash := hash,
              file_content := content, archive_date := now,
              retention_period := retention_days * 86400, reason, metadata }],
         nextId := st.nextId + 1 })

/-- Shallow embedding of `ArchiveDb::restore_file`: fetch the row with the
given id together with its BLOB payload, or `QueryReturnedNoRows`. -/
def ArchiveDb.restore_file (st : DbState) (id : Int) :
    Except DbError (ArchivedRow × List Nat) :=
  match st.rows.find? (fun r => r.id == id) with
  | some r => .ok (r, r.file_content)
  | none => .error .queryReturnedNoRows

/-- Shallow embedding of `ArchiveDb::list_archives`.  The SELECT statement
names the columns `origina_path` and `reaason`, neither of which exists in
the schema, so preparing it always fails; the ok branch (all rows ordered
by `archive_date` descending) is unreachable. -/
def ArchiveDb.list_archives (st : DbState) : Except DbError (List ArchivedRow) :=
  match firstUnknownColumn listArchivesSelectColumns with
  | some c => .error (.noSuchColumn c)
  | none => .ok (sortByDateDesc st.rows)

/-- Shallow embedding of `ArchiveDb::can_delete`:
`Utc::now() - archive_date >= Duration::seconds(retention_period)` for the
row with the given id, `QueryReturnedNoRows` if absent. -/
def ArchiveDb.can_delete (st : DbState) (id : Int) (now : Int) :
    Except DbError Bool :=
  match st.rows.find? (fun r => r.id == id) with
  | some r => .ok (decide (r.retention_period ≤ now - r.archive_date))
  | none => .error .queryReturnedNoRows

/-- Shallow embedding of `ArchiveDb::delete_archive`: re-checks
`can_delete` and only then deletes the row; otherwise fails with
`InvalidParameterName("Retention period has not expired")`. -/
def ArchiveDb.delete_archive (st : DbState) (id : Int) (now : Int) :
    Except DbError Unit × DbState :=
  match ArchiveDb.can_delete st id now with
  | .error e => (.error e, st)
  | .ok false =>
      (.error (.invalidParameterName "Retention period has not expired"), st)
  | .ok true =>
      (.ok (), { st with rows := st.rows.filter (fun r => !(r.id == id)) })

/-- Shallow embedding of `ArchiveDb::cleanup_expired`:
`DELETE FROM archived_files WHERE strftime('%s','now') -
strftime('%s', archive_date) > retention_period` (strict inequality),
returning the number of rows the DELETE removed. -/
def ArchiveDb.cleanup_expired (st : DbState) (now : Int) : Nat × DbState :=
  ((st.rows.filter (fun r => decide (r.retention_period < now - r.archive_date))).length,
   { st with
       rows := st.rows.filter (fun r => !decide (r.retention_period < now - r.archive_date)) })

/-- LIKE predicate of `ArchiveDb::search_archives`: the pattern
`%{query}%` matched against `name`, `original_path` and `reason`. -/
def rowMatchesQuery (q : String) (r : ArchivedRow) : Bool :=
  likeMatch (('%' :: q.data) ++ ['%']) r.name.data ||
    likeMatch (('%' :: q.data) ++ ['%']) r.original_path.data ||
    likeMatch (('%' :: q.data) ++ ['%']) r.reason.data

/-- Shallow embedding of `ArchiveDb::search_archives`: rows whose `name`,
`original_path` or `reason` matches `LIKE '%query%'`, ordered by
`archive_date` descending.  (This statement's column list is spelled
correctly, so it prepares and runs.) -/
def ArchiveDb.search_archives (st : DbState) (q : String) :
    Except DbError (List ArchivedRow) :=
  .ok (sortByDateDesc (st.rows.filter (rowMatchesQuery q)))

/-- Shallow embedding of `ArchiveDb::get_archive_info`: the row with the
given id, or `QueryReturnedNoRows`. -/
def ArchiveDb.get_archive_info (st : DbState) (id : Int) :
    Except DbError ArchivedRow :=
  match st.rows.find? (fun r => r.id == id) with
  | some r => .ok r
  | none => .error .queryReturnedNoRows

/-- Shallow embedding of `ArchiveDb::update_retention_period`: an UPDATE
that sets `retention_period` on every row with the given id.  An UPDATE
touching zero rows is still a success in SQLite, so this never fails. -/
def ArchiveDb.update_retention_period (st : DbState) (id : Int)
    (new_retention_seconds : Int) : Except DbError Unit × DbState :=
  (.ok (),
   { st with
       rows := st.rows.map (fun r =>
         if r.id == id then { r with retention_period := new_retention_seconds }
         else r) })

/-! ## ArchiveService (interface/mod.rs) -/

/-- What `ArchiveService::store` reads from the file system for a path:
the raw bytes and the creation/modification times (seconds since epoch). -/
structure FsEntry where
  content : List Nat
  created : Int
  modified : Int

/-- The metadata JSON document `store` builds with `serde_json::json!`
(object keys serialized in alphabetical order). -/
def metadataJson (size : Nat) (created modified : Int) : String :=
  "\x7b\"created\":" ++ toString created ++ ",\"modified\":" ++
    toString modified ++ ",\"size\":" ++ toString size ++ "\x7d"

/-- Rust `Path::extension`: the part of the final path component after its
last dot, none when the file name has no dot or only a leading one. -/
def extensionOf (path : String) : Option String :=
  let fileName := (path.splitOn "/").getLastD ""
  let cs := fileName.data
  match (List.range cs.length).filter (fun i => cs.getD i ' ' == '.') with
  | [] => none
  | is =>
      let i := is.getLastD 0
      if i == 0 then none else some (String.mk (cs.drop (i + 1)))

/-- Shallow embedding of `ArchiveService::can_delete`. -/
def ArchiveService.can_delete (st : DbState) (id : Int) (now : Int) :
    Except ArchiveError Bool :=
  match ArchiveDb.can_delete st id now with
  | .ok b => .ok b
  | .error e => .error (.DbError e)

/-- Shallow embedding of `ArchiveService::delete`: check `can_delete`, fail
with `RetentionActive` when it is false, delegate to
`ArchiveDb::delete_archive` when it is true. -/
def ArchiveService.delete (st : DbState) (id : Int) (now : Int) :
    Except ArchiveError Unit × DbState :=
  match ArchiveService.can_delete st id now with
  | .error e => (.error e, st)
  | .ok true =>
      match ArchiveDb.delete_archive st id now with
      | (.ok u, st2) => (.ok u, st2)
      | (.error e, st2) => (.error (.DbError e), st2)
  | .ok false => (.error .RetentionActive, st)

/-- `RetentionInfo` from db.rs: durations in seconds. -/
structure RetentionInfo where
  archive_date : Int
  retention_period : Int
  time_remaining : Option Int
  can_delete : Bool
deriving DecidableEq

/-- Shallow embedding of `ArchiveService::get_retention_info`. -/
def ArchiveService.get_retention_info (st : DbState) (id : Int) (now : Int) :
    Except ArchiveError RetentionInfo :=
  match ArchiveDb.get_archive_info st id with
  | .error .queryReturnedNoRows => .error (.NotFound id)
  | .error e => .error (.DbError e)
  | .ok a =>
      let time_remaining : Option Int :=
        if now < a.archive_date + a.retention_period then
          some (a.archive_date + a.retention_period - now)
        else none
      .ok { archive_date := a.archive_date,
            retention_period := a.retention_period,
            time_remaining,
            can_delete := time_remaining.isNone }

/-- Shallow embedding of `ArchiveService::update_retention`: delegate with
`new_retention_days * 86400`, mapping a `QueryReturnedNoRows` failure to
`NotFound` (an arm `ArchiveDb::update_retention_period` never takes). -/
def ArchiveService.update_retention (st : DbState) (id : Int)
    (new_retention_days : Int) : Except ArchiveError Unit × DbState :=
  match ArchiveDb.update_retention_period st id (new_retention_days * 86400) with
  | (.ok u, st2) => (.ok u, st2)
  | (.error .queryReturnedNoRows, st2) => (.error (.NotFound id), st2)
  | (.error e, st2) => (.error (.DbError e), st2)

/-- Shallow embedding of `ArchiveService::store`: read the file (IoError if
unreadable), derive the format from the extension, build the metadata
document, and delegate to `ArchiveDb::archive_file`. -/
def ArchiveService.store (st : DbState) (fs : String → Option FsEntry)
    (name : String) (path : String) (retention_days : Int)
    (reason : Option String) (now : Int) : Except ArchiveError Int × DbState :=
  match fs path with
  | none => (.error .IoError, st)
  | some entry =>
      let format := (extensionOf path).getD "unknown"
      let metadata := metadataJson entry.content.length entry.created entry.modified
      match ArchiveDb.archive_file st name path entry.content format
          retention_days (reason.getD "No reason provided") metadata now with
      | (.ok id, st2) => (.ok id, st2)
      | (.error e, st2) => (.error (.DbError e), st2)

/-- Shallow embedding of `ArchiveService::restore`: fetch the record and
payload, resolve the target path (explicit output path, appending the
record's name when it is a directory; otherwise the record's
`original_path`), and return the resolved path together with the bytes
written there. -/
def ArchiveService.restore (st : DbState) (isDir : String → Bool) (id : Int)
    (output_path : Option String) : Except ArchiveError (String × List Nat) :=
  match ArchiveDb.restore_file st id with
  | .error .queryReturnedNoRows => .error (.NotFound id)
  | .error e => .error (.DbError e)
  | .ok (a, content) =>
      let restore_path :=
        match output_path with
        | some op => if isDir op then op ++ "/" ++ a.name else op
        | none => a.original_path
      .ok (restore_path, content)

/-- Shallow embedding of `ArchiveService::list` (pass-through). -/
def ArchiveService.list (st : DbState) : Except ArchiveError (List ArchivedRow) :=
  match ArchiveDb.list_archives st with
  | .ok l => .ok l
  | .error e => .error (.DbError e)

/-- Shallow embedding of `ArchiveService::search` (pass-through). -/
def ArchiveService.search (st : DbState) (q : String) :
    Except ArchiveError (List ArchivedRow) :=
  match ArchiveDb.search_archives st q with
  | .ok l => .ok l
  | .error e => .error (.DbError e)

/-- Shallow embedding of `ArchiveService::cleanup` (pass-through). -/
def ArchiveService.cleanup (st : DbState) (now : Int) :
    Except ArchiveError Nat × DbState :=
  let (n, st2) := ArchiveDb.cleanup_expired st now
  (.ok n, st2)

/-! ## DisplayProjection (interface/display.rs and ArchivedFile::to_display_info) -/

/-- `TruncateLengths` from display.rs. -/
structure TruncateLengths where
  name : Nat
  path : Nat
deriving DecidableEq

/-- `UiType` from display.rs. -/
inductive UiType where
  | Cli : Bool → UiType
  | Tui : UiType
  | Gui : UiType
deriving DecidableEq

/-- `UiType::get_truncate_lengths` from display.rs. -/
def UiType.get_truncate_lengths : UiType → Option TruncateLengths
  | .Cli true => some { name := 30, path := 40 }
  | .Cli false => none
  | .Tui => some { name := 20, path := 30 }
  | .Gui => none

/-- Rust `str::is_char_boundary` on the UTF-8 bytes of a string: position 0
and the end are boundaries, anything past the end is not, and an interior
position is a boundary iff the byte there is not a continuation byte. -/
def isCharBoundary (s : List Nat) (i : Nat) : Bool :=
  if i == 0 then true
  else if i == s.length then true
  else if s.length < i then false
  else
    let b := s.getD i 0
    b < 128 || 192 ≤ b

/-- Shallow embedding of `DefaultFormatter::truncate` on the UTF-8 bytes of
the input string.  `s.len()` is the byte length and `&s[..k]` is a byte
slice, which panics (modelled as `Except.error`) when `k` is not a char
boundary; on success the result is the slice followed by `" ..."`. -/
def DefaultFormatter.truncate (s : List Nat) (max_len : Option Nat) :
    Except String (List Nat) :=
  match max_len with
  | some m =>
      if s.length > m then
        let k := m - 3
        if isCharBoundary s k then .ok (s.take k ++ [32, 46, 46, 46])
        else .error "byte index is not a char boundary"
      else .ok s
  | none => .ok s

/-- The `name` field of `ArchivedFile::to_display_info`:
`formatter.truncate(&self.name, truncate_lengths.map(|tl| tl.name))`,
on the UTF-8 bytes of the record's name. -/
def toDisplayInfoName (name : List Nat) (ui : UiType) : Except String (List Nat) :=
  DefaultFormatter.truncate name ((UiType.get_truncate_lengths ui).map TruncateLengths.name)

/-- The `path` field of `ArchivedFile::to_display_info`:
`formatter.truncate(&self.original_path, truncate_lengths.map(|tl| tl.path))`. -/
def toDisplayInfoPath (path : List Nat) (ui : UiType) : Except String (List Nat) :=
  DefaultFormatter.truncate path ((UiType.get_truncate_lengths ui).map TruncateLengths.path)

/-! ## Helper lemmas -/

theorem likeMatch_pct_all (s : List Char) : likeMatch ['%'] s = true := by
  induction s with
  | nil => rfl
  | cons c s2 ih =>
      show ((c :: s2) :: tailsOf s2).any (fun t => likeMatch [] t) = true
      have h2 : (tailsOf s2).any (fun t => likeMatch [] t) = true := ih
      simp [List.any_cons, h2]

theorem likeMatch_append_pct (q : List Char) (hq : ∀ c ∈ q, c ≠ '%' ∧ c ≠ '_') :
    ∀ s : List Char,
      likeMatch (q ++ ['%']) s = (q.map asciiLower).isPrefixOf (s.map asciiLower) := by
  induction q with
  | nil => intro s; simp [likeMatch_pct_all, List.isPrefixOf]
  | cons p q ih =>
      intro s
      have hp := hq p (by simp)
      have h1 : (p == '%') = false := by simp [hp.1]
      have h2 : (p == '_') = false := by simp [hp.2]
      cases s with
      | nil => simp [likeMatch, h1, List.isPrefixOf]
      | cons c s2 =>
          simp [likeMatch, h1, h2, List.isPrefixOf,
            ih (fun x hx => hq x (by simp [hx])) s2]

theorem likeMatch_pct_wrap (q : List Char) (hq : ∀ c ∈ q, c ≠ '%' ∧ c ≠ '_') :
    ∀ s : List Char,
      likeMatch ('%' :: (q ++ ['%'])) s
        = hasSubstring (q.map asciiLower) (s.map asciiLower) := by
  intro s
  show (tailsOf s).any (fun t => likeMatch (q ++ ['%']) t)
      = hasSubstring (q.map asciiLower) (s.map asciiLower)
  induction s with
  | nil =>
      show (likeMatch (q ++ ['%']) [] || false)
          = hasSubstring (q.map asciiLower) ([].map asciiLower)
      rw [likeMatch_append_pct q hq []]
      cases q <;> simp [hasSubstring, List.isPrefixOf]
  | cons c s2 ih =>
      show (likeMatch (q ++ ['%']) (c :: s2) ||
            (tailsOf s2).any (fun t => likeMatch (q ++ ['%']) t))
          = hasSubstring (q.map asciiLower) ((c :: s2).map asciiLower)
      rw [likeMatch_append_pct q hq (c :: s2), ih]
      simp [hasSubstring]

theorem rowMatches_eq_spec (q : String) (hq : noWildcardChars q = true)
    (r : ArchivedRow) :
    rowMatchesQuery q r
      = (specCiSubstring q r.name || specCiSubstring q r.original_path ||
          specCiSubstring q r.reason) := by
  have hq' : ∀ c ∈ q.data, c ≠ '%' ∧ c ≠ '_' := by
    intro c hc
    have := List.all_eq_true.mp hq c hc
    constructor <;> intro h <;> simp [h] at this
  unfold rowMatchesQuery specCiSubstring
  rw [List.cons_append, likeMatch_pct_wrap q.data hq', likeMatch_pct_wrap q.data hq',
    likeMatch_pct_wrap q.data hq']

theorem find_id_unique (rows : List ArchivedRow) (id : Int) (r r0 : ArchivedRow)
    (hnd : (rows.map (fun x => x.id)).Nodup) (hr : r ∈ rows) (hid : r.id = id)
    (hfind : rows.find? (fun x => x.id == id) = some r0) : r = r0 := by
  induction rows with
  | nil => cases hr
  | cons x rest ih =>
      by_cases hx : (x.id == id) = true
      · have hx' : (fun y : ArchivedRow => y.id == id) x = true := hx
        rw [List.find?_cons_of_pos rest hx'] at hfind
        rcases List.mem_cons.mp hr with h | h
        · rw [h, Option.some_inj.mp hfind]
        · exfalso
          have hxid : x.id = id := by simpa using hx
          have hnotin := (List.nodup_cons.mp hnd).1
          exact hnotin (by
            show x.id ∈ List.map (fun y => y.id) rest
            rw [hxid, ← hid]
            exact List.mem_map_of_mem (fun y => y.id) h)
      · have hx' : ¬(fun y : ArchivedRow => y.id == id) x = true := hx
        rw [List.find?_cons_of_neg rest hx'] at hfind
        rcases List.mem_cons.mp hr with h | h
        · exfalso
          exact hx (by simp [← h, hid])
        · exact ih (List.nodup_cons.mp hnd).2 h hfind

/-! ## Concrete fixtures for witnesses and counterexamples -/

/-- A sample archived row: archived at time 1000 with one day retention. -/
def sampleRow : ArchivedRow :=
  { id := 1
    name := "db-config"
    original_path := "/etc/db.json"
    format := "json"
    content_hash := "deadbeef"
    file_content := [97, 98, 99]
    archive_date := 1000
    retention_period := 86400
    reason := "backup"
    metadata := "\x7b\"size\":3\x7d" }

/-- A store holding just `sampleRow`. -/
def sampleDb : DbState := { rows := [sampleRow], nextId := 2 }

/-- A second row named app-config, archived later than `sampleRow`. -/
def appRow : ArchivedRow :=
  { sampleRow with id := 2, name := "app-config", archive_date := 2000 }

/-- A third row whose name, path and reason avoid the text config. -/
def notesRow : ArchivedRow :=
  { sampleRow with
      id := 3
      name := "notes"
      original_path := "/etc/notes.txt"
      reason := "misc"
      archive_date := 3000 }

/-- The store of the spec's search scenario: db-config, app-config, notes. -/
def searchDb : DbState := { rows := [sampleRow, appRow, notesRow], nextId := 4 }

/-- A row containing no underscore and no percent sign anywhere. -/
def underscoreRow : ArchivedRow :=
  { sampleRow with
      id := 7
      name := "abc"
      original_path := "xp"
      reason := "rr"
      archive_date := 5 }

/-! ## More helper lemmas -/

theorem get_ok_find (st : DbState) (id : Int) (r : ArchivedRow)
    (hget : ArchiveDb.get_archive_info st id = .ok r) :
    st.rows.find? (fun x => x.id == id) = some r := by
  unfold ArchiveDb.get_archive_info at hget
  cases hf : st.rows.find? (fun x => x.id == id) with
  | some r2 =>
      rw [hf] at hget
      have hget2 : (Except.ok r2 : Except DbError ArchivedRow) = Except.ok r := hget
      injection hget2 with h
      rw [h]
  | none =>
      rw [hf] at hget
      exact Except.noConfusion hget

theorem can_delete_false_of_unexpired (st : DbState) (id now : Int)
    (r : ArchivedRow) (hfind : st.rows.find? (fun x => x.id == id) = some r)
    (h : now - r.archive_date < r.retention_period) :
    ArchiveDb.can_delete st id now = .ok false := by
  unfold ArchiveDb.can_delete
  rw [hfind]
  show Except.ok (decide (r.retention_period ≤ now - r.archive_date))
      = Except.ok false
  rw [decide_eq_false (not_le.mpr h)]

/-! ## Claim theorems -/

/-- C1 (code bug): the round-trip property cannot hold because `store` can
never succeed: the INSERT statement in `ArchiveDb::archive_file` names the
column `origina_path`, which does not exist in the `archived_files` schema
(`original_path`), so SQLite rejects the statement and every store fails
with a database error, leaving the store unchanged.  The claim presumes
content can be successfully stored and then restored. -/
theorem archive_file_insert_misspelled_column :
    ∀ (st : DbState) (now : Int),
      (ArchiveDb.archive_file st "settings" "/tmp/settings.json" [97, 98, 99]
          "json" 1 "backup" "\x7b\x7d" now).1
        = .error (.noSuchColumn "origina_path")
      ∧ (ArchiveDb.archive_file st "settings" "/tmp/settings.json" [97, 98, 99]
          "json" 1 "backup" "\x7b\x7d" now).2 = st
      ∧ (ArchiveService.store st
          (fun _ => some { content := [97, 98, 99], created := 10, modified := 20 })
          "settings" "/tmp/settings.json" 1 (some "backup") now).1
        = .error (.DbError (.noSuchColumn "origina_path")) := by
  intro st now
  exact ⟨rfl, rfl, rfl⟩

/-- C2: `delete` on a stored record whose retention period has not yet
elapsed fails with `RetentionActive` and leaves the store state unchanged;
the record is still retrievable afterwards with all fields equal. -/
theorem delete_retention_active_preserves_record (st : DbState) (id now : Int)
    (r : ArchivedRow) (hget : ArchiveDb.get_archive_info st id = .ok r)
    (hactive : now - r.archive_date < r.retention_period) :
    ArchiveService.delete st id now = (.error .RetentionActive, st)
    ∧ ArchiveDb.get_archive_info (ArchiveService.delete st id now).2 id = .ok r := by
  have hfind := get_ok_find st id r hget
  have hcd := can_delete_false_of_unexpired st id now r hfind hactive
  have hdel : ArchiveService.delete st id now = (.error .RetentionActive, st) := by
    unfold ArchiveService.delete ArchiveService.can_delete
    rw [hcd]
  exact ⟨hdel, by rw [hdel]; exact hget⟩

/-- Witness for C2: one record archived at time 1000 with one day
retention, deletion attempted immediately at time 1000. -/
theorem delete_retention_active_preserves_record_witness :
    ArchiveService.delete sampleDb 1 1000 = (.error .RetentionActive, sampleDb) :=
  (delete_retention_active_preserves_record sampleDb 1 1000 sampleRow rfl
    (by decide)).1

/-- C3: for a stored record, `can_delete` returns true iff
`now - archive_date >= retention_period` (inclusive boundary), and
`get_retention_info` reports `time_remaining = some (expiry - now)` when
`now < expiry` and `none` otherwise, with its `can_delete` flag true
exactly when `time_remaining` is `none` (equivalently, exactly when the
retention period has elapsed). -/
theorem can_delete_iff_retention_elapsed (st : DbState) (id now : Int)
    (r : ArchivedRow) (hget : ArchiveDb.get_archive_info st id = .ok r) :
    (ArchiveDb.can_delete st id now = .ok true ↔
      r.retention_period ≤ now - r.archive_date)
    ∧ ∃ info, ArchiveService.get_retention_info st id now = .ok info
        ∧ info.time_remaining
            = (if now < r.archive_date + r.retention_period
               then some (r.archive_date + r.retention_period - now) else none)
        ∧ (info.can_delete = true ↔ info.time_remaining = none)
        ∧ (info.can_delete = true ↔ r.retention_period ≤ now - r.archive_date) := by
  have hfind := get_ok_find st id r hget
  constructor
  · unfold ArchiveDb.can_delete
    rw [hfind]
    show Except.ok (decide (r.retention_period ≤ now - r.archive_date))
        = Except.ok true ↔ r.retention_period ≤ now - r.archive_date
    constructor
    · intro h
      injection h with h2
      exact of_decide_eq_true h2
    · intro h
      rw [decide_eq_true h]
  · have hret : ArchiveService.get_retention_info st id now = .ok
        { archive_date := r.archive_date
          retention_period := r.retention_period
          time_remaining :=
            if now < r.archive_date + r.retention_period
            then some (r.archive_date + r.retention_period - now) else none
          can_delete :=
            (if now < r.archive_date + r.retention_period
             then some (r.archive_date + r.retention_period - now)
             else none).isNone } := by
      unfold ArchiveService.get_retention_info
      rw [hget]
    refine ⟨_, hret, rfl, ?_, ?_⟩
    · by_cases hc : now < r.archive_date + r.retention_period
      · simp [hc]
      · simp [hc]
    · by_cases hc : now < r.archive_date + r.retention_period
      · simp [hc]
        omega
      · simp [hc]
        omega

/-- Witness for C3 at the exact expiry instant 1000 + 86400: the record is
already delete-eligible (inclusive boundary). -/
theorem can_delete_iff_retention_elapsed_witness :
    ArchiveDb.can_delete sampleDb 1 87400 = .ok true :=
  (can_delete_iff_retention_elapsed sampleDb 1 87400 sampleRow rfl).1.mpr
    (by decide)

/-- C4: `cleanup_expired` removes exactly the rows with
`now - archive_date > retention_period` (strict inequality), keeps every
other row untouched, and returns the number of rows removed; at the
boundary instant `now - archive_date = retention_period` the row is kept
by cleanup even though `can_delete` is already true there. -/
theorem cleanup_removes_exactly_strictly_expired (st : DbState) (now : Int) :
    ((ArchiveDb.cleanup_expired st now).1
        + (ArchiveDb.cleanup_expired st now).2.rows.length = st.rows.length)
    ∧ (∀ r : ArchivedRow, r ∈ (ArchiveDb.cleanup_expired st now).2.rows ↔
        r ∈ st.rows ∧ now - r.archive_date ≤ r.retention_period)
    ∧ (∀ (id : Int) (r : ArchivedRow), ArchiveDb.get_archive_info st id = .ok r →
        now - r.archive_date = r.retention_period →
        r ∈ (ArchiveDb.cleanup_expired st now).2.rows
          ∧ ArchiveDb.can_delete st id now = .ok true) := by
  refine ⟨?_, ?_, ?_⟩
  · exact (List.length_eq_length_filter_add
      (fun r : ArchivedRow =>
        decide (r.retention_period < now - r.archive_date))).symm
  · intro r
    simp [ArchiveDb.cleanup_expired, List.mem_filter, not_lt]
  · intro id r hget hb
    have hfind := get_ok_find st id r hget
    have hmem := List.mem_of_find?_eq_some hfind
    constructor
    · simp [ArchiveDb.cleanup_expired, List.mem_filter, not_lt]
      exact ⟨hmem, by omega⟩
    · unfold ArchiveDb.can_delete
      rw [hfind]
      show Except.ok (decide (r.retention_period ≤ now - r.archive_date))
          = Except.ok true
      rw [decide_eq_true (le_of_eq hb.symm)]

/-- Witness for C4 at the boundary instant 87400 = 1000 + 86400: cleanup
keeps the record while `can_delete` already reports true. -/
theorem cleanup_removes_exactly_strictly_expired_witness :
    sampleRow ∈ (ArchiveDb.cleanup_expired sampleDb 87400).2.rows
    ∧ ArchiveDb.can_delete sampleDb 1 87400 = .ok true :=
  (cleanup_removes_exactly_strictly_expired sampleDb 87400).2.2 1 sampleRow rfl
    (by decide)

/-- C5 counterexample: on the empty store, `update_retention(1, 5)`
succeeds (UPDATE of zero rows is a success in SQLite) instead of failing
with `NotFound(1)`, although no record with id 1 exists. -/
theorem update_retention_missing_id_succeeds :
    (ArchiveService.update_retention { rows := [], nextId := 1 } 1 5).1 = .ok ()
    ∧ ({ rows := [], nextId := 1 } : DbState).rows.find? (fun r => r.id == 1)
        = none :=
  ⟨rfl, rfl⟩

/-- C5 amended: `update_retention(id, d)` always succeeds; when a record
with that id exists its `retention_seconds` becomes `d * 86400`, when the
id is absent the call is a no-op (the `NotFound` mapping in the service is
unreachable), and no record is added or removed. -/
theorem update_retention_always_succeeds (st : DbState) (id d : Int) :
    (ArchiveService.update_retention st id d).1 = .ok ()
    ∧ (∀ r ∈ st.rows, r.id = id →
        { r with retention_period := d * 86400 }
          ∈ (ArchiveService.update_retention st id d).2.rows)
    ∧ (∀ r ∈ st.rows, r.id ≠ id →
        r ∈ (ArchiveService.update_retention st id d).2.rows)
    ∧ (ArchiveService.update_retention st id d).2.rows.length
        = st.rows.length := by
  refine ⟨rfl, ?_, ?_, ?_⟩
  · intro r hr hid
    show _ ∈ st.rows.map (fun x =>
      if x.id == id then { x with retention_period := d * 86400 } else x)
    exact List.mem_map.mpr ⟨r, hr, by simp [hid]⟩
  · intro r hr hid
    show _ ∈ st.rows.map (fun x =>
      if x.id == id then { x with retention_period := d * 86400 } else x)
    exact List.mem_map.mpr ⟨r, hr, by simp [hid]⟩
  · show (st.rows.map _).length = st.rows.length
    exact List.length_map _ _

/-- Witness for C5's amended theorem: updating `sampleRow` to five days of
retention stores 432000 seconds. -/
theorem update_retention_always_succeeds_witness :
    { sampleRow with retention_period := 432000 }
      ∈ (ArchiveService.update_retention sampleDb 1 5).2.rows :=
  (update_retention_always_succeeds sampleDb 1 5).2.1 sampleRow (by decide) rfl

/-- C6 (code bug): `list` can never return records: the SELECT statement
in `ArchiveDb::list_archives` names the columns `origina_path` and
`reaason`, neither of which exists in the schema (`original_path`,
`reason`), so preparing it fails and every `list()` call returns a
database error on every store state, even the empty one. -/
theorem list_archives_select_misspelled_columns :
    ∀ st : DbState,
      ArchiveDb.list_archives st = .error (.noSuchColumn "origina_path")
      ∧ ArchiveService.list st = .error (.DbError (.noSuchColumn "origina_path")) :=
  fun _ => ⟨rfl, rfl⟩

/-- C7 counterexample: starting from a store whose only record has a
non-negative retention, the accepted call `update_retention(1, -1)`
succeeds and stores `retention_seconds = -86400 < 0`. -/
theorem update_retention_accepts_negative_days :
    (0 : Int) ≤ sampleRow.retention_period
    ∧ (ArchiveService.update_retention sampleDb 1 (-1)).1 = .ok ()
    ∧ (ArchiveService.update_retention sampleDb 1 (-1)).2.rows
        = [{ sampleRow with retention_period := -86400 }]
    ∧ ({ sampleRow with retention_period := -86400 } : ArchivedRow).retention_period
        < 0 :=
  ⟨by decide, rfl, by decide, by decide⟩

/-- C7 amended: `retention_seconds >= 0` is an invariant only under the
extra assumption that every day count passed in is non-negative; under
that assumption all operations preserve it (`archive_file` trivially so,
because its INSERT always fails and leaves the store unchanged). -/
theorem retention_nonneg_preserved_by_nonneg_inputs (st : DbState)
    (id d now : Int) (hst : ∀ r ∈ st.rows, 0 ≤ r.retention_period)
    (hd : 0 ≤ d) :
    (∀ r ∈ (ArchiveService.update_retention st id d).2.rows,
        0 ≤ r.retention_period)
    ∧ (∀ r ∈ (ArchiveService.delete st id now).2.rows, 0 ≤ r.retention_period)
    ∧ (∀ r ∈ (ArchiveDb.cleanup_expired st now).2.rows, 0 ≤ r.retention_period)
    ∧ (∀ (name path format reason metadata : String) (content : List Nat)
        (r : ArchivedRow),
        r ∈ (ArchiveDb.archive_file st name path content format d reason
            metadata now).2.rows →
        0 ≤ r.retention_period) := by
  refine ⟨?_, ?_, ?_, ?_⟩
  · intro r hr
    have hr2 : r ∈ st.rows.map (fun x =>
        if x.id == id then { x with retention_period := d * 86400 } else x) := hr
    rcases List.mem_map.mp hr2 with ⟨x, hx, hfx⟩
    by_cases hxi : (x.id == id) = true
    · rw [← hfx]
      simp only [hxi, if_true]
      exact mul_nonneg hd (by norm_num)
    · rw [← hfx]
      simp only [hxi, if_false, Bool.false_eq_true]
      exact hst x hx
  · intro r hr
    unfold ArchiveService.delete ArchiveService.can_delete at hr
    cases hcd : ArchiveDb.can_delete st id now with
    | error e => rw [hcd] at hr; exact hst r hr
    | ok b =>
        cases b with
        | false => rw [hcd] at hr; exact hst r hr
        | true =>
            rw [hcd] at hr
            unfold ArchiveDb.delete_archive at hr
            rw [hcd] at hr
            have hr2 : r ∈ st.rows.filter (fun x => !(x.id == id)) := hr
            exact hst r (List.mem_filter.mp hr2).1
  · intro r hr
    have hr2 : r ∈ st.rows.filter
        (fun x => !decide (x.retention_period < now - x.archive_date)) := hr
    exact hst r (List.mem_filter.mp hr2).1
  · intro name path format reason metadata content r hr
    exact hst r hr

/-- Witness for C7's amended theorem: the updated record keeps a
non-negative retention when five days are requested. -/
theorem retention_nonneg_preserved_by_nonneg_inputs_witness :
    0 ≤ ({ sampleRow with retention_period := 432000 } : ArchivedRow).retention_period :=
  (retention_nonneg_preserved_by_nonneg_inputs sampleDb 1 5 0
    (by decide) (by decide)).1 _ (by decide)

/-- UTF-8 bytes of a name of sixteen Greek alpha characters (each encoded
as the two bytes 0xCE 0xB1), 32 bytes in total. -/
def alphaNameBytes : List Nat := (List.replicate 16 [206, 177]).flatten

theorem hasSubstring_nil (s : List Char) : hasSubstring [] s = true := by
  cases s <;> simp [hasSubstring, List.isPrefixOf]

theorem specCiSubstring_nil (s : String) : specCiSubstring "" s = true :=
  hasSubstring_nil _

/-- C8 (code bug): the display projection is not total.
`ArchivedFile::to_display_info` truncates `name` with
`DefaultFormatter::truncate`, which byte-slices the string at
`max_len - 3` without a char-boundary check; for a 32-byte name of
sixteen alpha characters under the TUI mode (name limit 20) the slice
index 17 falls inside a two-byte character, so the projection panics
instead of degrading gracefully. -/
theorem to_display_info_truncate_panics_on_multibyte :
    toDisplayInfoName alphaNameBytes UiType.Tui
      = .error "byte index is not a char boundary"
    ∧ alphaNameBytes.length = 32
    ∧ isCharBoundary alphaNameBytes 17 = false :=
  ⟨rfl, rfl, rfl⟩

/-- C9 counterexample: with a single record containing no underscore in
its name, path or reason, `search("_")` returns that record, because `_`
in the LIKE pattern `%_%` is a single-character wildcard; yet `_` does not
occur as a (case-insensitive) substring of any of the three fields. -/
theorem search_underscore_wildcard_not_substring :
    ArchiveDb.search_archives { rows := [underscoreRow], nextId := 8 } "_"
      = .ok [underscoreRow]
    ∧ specCiSubstring "_" underscoreRow.name = false
    ∧ specCiSubstring "_" underscoreRow.original_path = false
    ∧ specCiSubstring "_" underscoreRow.reason = false :=
  ⟨by decide, rfl, rfl, rfl⟩

/-- C9 amended: for queries containing no LIKE wildcard character (`%` or
`_`), `search` returns exactly the stored records in which the query
occurs as a case-insensitive substring (ASCII case folding, as SQLite's
LIKE) of `name`, `original_path` or `reason`, ordered by `archive_date`
descending; in particular the empty query returns a permutation of all
records in that order.  Queries containing `%` or `_` are instead
interpreted as wildcard patterns. -/
theorem search_is_ci_substring_without_wildcards (st : DbState) (q : String)
    (hq : noWildcardChars q = true) :
    ArchiveDb.search_archives st q
      = .ok (sortByDateDesc (st.rows.filter (fun r =>
          specCiSubstring q r.name || specCiSubstring q r.original_path ||
            specCiSubstring q r.reason)))
    ∧ List.Sorted dateDescRel (sortByDateDesc (st.rows.filter (rowMatchesQuery q)))
    ∧ (sortByDateDesc (st.rows.filter (rowMatchesQuery q))).Perm
        (st.rows.filter (fun r =>
          specCiSubstring q r.name || specCiSubstring q r.original_path ||
            specCiSubstring q r.reason))
    ∧ (q = "" → (sortByDateDesc (st.rows.filter (rowMatchesQuery q))).Perm st.rows) := by
  have hfc : st.rows.filter (rowMatchesQuery q)
      = st.rows.filter (fun r =>
          specCiSubstring q r.name || specCiSubstring q r.original_path ||
            specCiSubstring q r.reason) :=
    List.filter_congr (fun r _ => rowMatches_eq_spec q hq r)
  refine ⟨?_, ?_, ?_, ?_⟩
  · show Except.ok (sortByDateDesc (st.rows.filter (rowMatchesQuery q))) = _
    rw [hfc]
  · exact List.sorted_insertionSort dateDescRel _
  · rw [hfc]
    exact List.perm_insertionSort dateDescRel _
  · intro hq0
    subst hq0
    have hall : st.rows.filter (rowMatchesQuery "") = st.rows := by
      apply List.filter_eq_self.mpr
      intro r _
      rw [rowMatches_eq_spec "" rfl r]
      simp [specCiSubstring_nil]
    rw [hall]
    exact List.perm_insertionSort dateDescRel st.rows

/-- Witness for C9's amended theorem at the spec's scenario store
(db-config, app-config, notes) with the wildcard-free query config. -/
theorem search_is_ci_substring_without_wildcards_witness :
    ArchiveDb.search_archives searchDb "config"
      = .ok (sortByDateDesc (searchDb.rows.filter (fun r =>
          specCiSubstring "config" r.name ||
            specCiSubstring "config" r.original_path ||
            specCiSubstring "config" r.reason))) :=
  (search_is_ci_substring_without_wildcards searchDb "config" rfl).1

/-- C10: the store layer's `delete_archive` re-checks delete-eligibility
itself, so (for stores whose ids are unique, as the PRIMARY KEY enforces)
no record whose retention period has not elapsed is ever removed by it,
and called on a non-eligible record it returns an error and leaves the
store state unchanged. -/
theorem db_delete_never_removes_unexpired (st : DbState) (id now : Int)
    (hnd : (st.rows.map (fun r => r.id)).Nodup) :
    (∀ r ∈ st.rows, now - r.archive_date < r.retention_period →
        r ∈ (ArchiveDb.delete_archive st id now).2.rows)
    ∧ (∀ r : ArchivedRow, ArchiveDb.get_archive_info st id = .ok r →
        now - r.archive_date < r.retention_period →
        ArchiveDb.delete_archive st id now
          = (.error (.invalidParameterName "Retention period has not expired"),
             st)) := by
  constructor
  · intro r hr hlt
    unfold ArchiveDb.delete_archive
    cases hcd : ArchiveDb.can_delete st id now with
    | error e => exact hr
    | ok b =>
        cases b with
        | false => exact hr
        | true =>
            show r ∈ st.rows.filter (fun x => !(x.id == id))
            unfold ArchiveDb.can_delete at hcd
            cases hf : st.rows.find? (fun x => x.id == id) with
            | none =>
                rw [hf] at hcd
                exact Except.noConfusion hcd
            | some r0 =>
                rw [hf] at hcd
                have hcd2 : (Except.ok
                    (decide (r0.retention_period ≤ now - r0.archive_date)) :
                      Except DbError Bool) = .ok true := hcd
                injection hcd2 with hb
                have helig := of_decide_eq_true hb
                apply List.mem_filter.mpr
                refine ⟨hr, ?_⟩
                by_cases hri : r.id = id
                · exfalso
                  have hrr0 := find_id_unique st.rows id r r0 hnd hr hri hf
                  rw [hrr0] at hlt
                  omega
                · simp [hri]
  · intro r hget hlt
    have hfind := get_ok_find st id r hget
    have hcd := can_delete_false_of_unexpired st id now r hfind hlt
    unfold ArchiveDb.delete_archive
    rw [hcd]

/-- Witness for C10: the store-layer delete on `sampleRow` right after
archiving fails and leaves the store unchanged. -/
theorem db_delete_never_removes_unexpired_witness :
    ArchiveDb.delete_archive sampleDb 1 1000
      = (.error (.invalidParameterName "Retention period has not expired"),
         sampleDb) :=
  (db_delete_never_removes_unexpired sampleDb 1 1000 (by decide)).2 sampleRow rfl
    (by decide)
